import Mathlib

/-!
Verification of the extraction + confidence-scoring engine and the
revision/audit history store of the pdf-excel-extractor backend.

The Python sources embedded here are
  - backend/app/services/pdf_processor.py  (pattern matching, confidence
    scoring, per-page field extraction with dedup, table field extraction,
    and the internal processing orchestrator), and
  - backend/app/security/extraction_history.py  (the extraction-history
    manager: event log, revision log, field-state projection, search).

Modelling conventions:
  - Python floats are modelled as rationals (ℚ).  Every confidence value the
    scorer produces is an exact multiple of 0.01; the float rounding noise of
    CPython (< 1e-15 per operation) never crosses a 0.005 rounding boundary on
    the values reachable here, so exact rational arithmetic is extensionally
    the same function.  `round(x, 2)` is modelled as round-half-up to
    hundredths; none of the values appearing in the claims sits on a
    half-boundary, where CPython's float `round` (banker's rounding on binary
    floats) could differ.
  - Rational arithmetic is implemented by executable wrappers (qAdd, qMul, …)
    over `mkRat`, because the library's `Rat.add`/`Rat.mul` are `irreducible`
    and would block kernel evaluation of concrete witnesses.  Bridge lemmas
    prove the wrappers equal to the ordinary `+`, `*`, `min`, `round`
    operations, and theorem statements use the ordinary operations.
  - The `re` library is modelled by a small backtracking engine over an AST:
    the ten registered field patterns (and the three clarity check patterns)
    are translated node by node, preserving greedy/lazy repetition,
    alternation order, word boundaries `\b`, lookahead `(?=…)`, `$` (with and
    without MULTILINE) and the IGNORECASE flag.  `re.findall` (leftmost,
    non-overlapping, group-1-or-whole-match) and the prefix-anchored
    `re.match` are both modelled.  The engine is fuel-indexed (structural
    recursion) so the kernel can evaluate it; the fuel bound exceeds the
    nesting depth any of the fixed patterns can reach on a given input.
  - File, PDF-library and SQLite I/O are at the boundary of the embedded
    code: the two text-extraction strategies and the camelot/pdfplumber table
    list enter `_process_pdf_internal` as values; the three SQLite tables of
    the history manager are lists of rows, `uuid4()` and
    `datetime.now().timestamp()` are explicit id/timestamp arguments, and SQL
    `ORDER BY` is an explicit sort.  `json.dumps`/`json.loads` of the details
    dict round-trips, so details are kept structured.  The `display_message`
    string (used only by the free-text search filter, which no claim
    exercises) is not modelled.
-/

/-! ### Executable rational arithmetic

Wrappers over `mkRat` that the kernel can evaluate; bridge lemmas to the
ordinary field operations come after the definitions. -/

def qAdd (a b : ℚ) : ℚ := mkRat (a.num * b.den + b.num * a.den) (a.den * b.den)

def qMul (a b : ℚ) : ℚ := mkRat (a.num * b.num) (a.den * b.den)

def qSub (a b : ℚ) : ℚ := mkRat (a.num * b.den - b.num * a.den) (a.den * b.den)

def qLe (a b : ℚ) : Bool := !(Rat.blt b a)

def qLt (a b : ℚ) : Bool := Rat.blt a b

def qMin (a b : ℚ) : ℚ := if qLe a b then a else b

def qFloor (q : ℚ) : ℤ := q.num.fdiv q.den

def qDivNat (q : ℚ) (n : ℕ) : ℚ := mkRat q.num (q.den * n)

def qSum (l : List ℚ) : ℚ := l.foldl qAdd 0

/-- Python `round(x, 2)`: round to hundredths, halves away from zero on the
nonnegative values that occur here. -/
def round2 (q : ℚ) : ℚ := mkRat (qFloor (qAdd (qMul q 100) (mkRat 1 2))) 100

/-! ### Python string primitives, on `List Char` -/

/-- Python `\s` / `str.strip` whitespace: space, tab, newline, CR, VT, FF. -/
def pyWs (c : Char) : Bool :=
  c = ' ' || c = '\t' || c = '\n' || c = '\r' || c = '\x0b' || c = '\x0c'

/-- Python `\w`: ASCII letters, digits, underscore (inputs here are ASCII). -/
def pyWord (c : Char) : Bool := c.isAlphanum || c = '_'

def lowerL (l : List Char) : List Char := l.map Char.toLower

/-- Python `str.strip()`. -/
def stripL (l : List Char) : List Char :=
  ((l.dropWhile pyWs).reverse.dropWhile pyWs).reverse

/-- Python `str.isdigit()` (nonempty, all digits). -/
def pyIsDigit (l : List Char) : Bool := !l.isEmpty && l.all Char.isDigit

/-- Index of the first occurrence of `needle` in `hay` (Python `str.find`,
with `none` for Python's `-1`). -/
def firstIdx : List Char → List Char → Option Nat
  | hay, needle =>
    if needle.isPrefixOf hay then some 0
    else match hay with
      | [] => none
      | _ :: t => (firstIdx t needle).map (fun n => n + 1)

/-- Python `needle in hay` on strings. -/
def containsSub (hay needle : List Char) : Bool := (firstIdx hay needle).isSome

/-- Python slice `l[a:b]` for `0 ≤ a ≤ b` (out-of-range indices truncate). -/
def sliceL (l : List Char) (a b : Nat) : List Char := (l.take b).drop a

/-- Python `str.split('\n')`. -/
def splitNl : List Char → List (List Char)
  | [] => [[]]
  | c :: t =>
    let r := splitNl t
    if c = '\n' then [] :: r
    else match r with
      | [] => [[c]]
      | h :: t2 => (c :: h) :: t2

/-! ### Regex engine

AST and fuel-indexed backtracking matcher for the patterns used by
`PDFProcessor`.  Alternatives are tried left first, greedy repetition longest
first, lazy repetition shortest first, exactly as Python's `re` does. -/

inductive RE where
  | eps : RE
  | cls : (Char → Bool) → RE
  | cat : RE → RE → RE
  | alt : RE → RE → RE
  | optG : RE → RE
  | starG : RE → RE
  | starL : RE → RE
  | grp : RE → RE
  | look : RE → RE
  | wb : RE
  | dollar : Bool → RE

/-- Word-character test for `\b` on an optional neighbouring character. -/
def isWordO : Option Char → Bool
  | some c => pyWord c
  | none => false

/-- Match result: the capture of group 1 (if the pattern has one) and the
unconsumed suffix. -/
abbrev MRes := Option (List Char) × List Char

/-- Backtracking matcher in continuation-passing style.  `prev` is the
character just before the current position (for `\b`), `cap` the group-1
capture so far.  Fuel decreases on every recursive call, making the
definition structural (kernel-evaluable); callers pass fuel exceeding any
reachable nesting depth. -/
def reM : Nat → RE → Option (List Char) → Option Char → List Char →
    (Option (List Char) → Option Char → List Char → Option MRes) → Option MRes
  | 0, _, _, _, _, _ => none
  | fuel + 1, r, cap, prev, s, k =>
    match r with
    | .eps => k cap prev s
    | .cls f =>
      match s with
      | [] => none
      | c :: rest => if f c then k cap (some c) rest else none
    | .cat r1 r2 =>
      reM fuel r1 cap prev s (fun c p s2 => reM fuel r2 c p s2 k)
    | .alt r1 r2 =>
      (reM fuel r1 cap prev s k).orElse (fun _ => reM fuel r2 cap prev s k)
    | .optG r1 =>
      (reM fuel r1 cap prev s k).orElse (fun _ => k cap prev s)
    | .starG r1 =>
      (reM fuel r1 cap prev s (fun c p s2 => reM fuel (RE.starG r1) c p s2 k)).orElse
        (fun _ => k cap prev s)
    | .starL r1 =>
      (k cap prev s).orElse
        (fun _ => reM fuel r1 cap prev s (fun c p s2 => reM fuel (RE.starL r1) c p s2 k))
    | .grp r1 =>
      reM fuel r1 cap prev s (fun _ p s2 => k (some (s.take (s.length - s2.length))) p s2)
    | .look r1 =>
      match reM fuel r1 cap prev s (fun c _ s2 => some (c, s2)) with
      | some _ => k cap prev s
      | none => none
    | .wb =>
      if isWordO prev != isWordO s.head? then k cap prev s else none
    | .dollar ml =>
      if s.isEmpty || (ml && s.head? = some '\n') || (!ml && s = ['\n']) then
        k cap prev s
      else none

/-- Fuel that exceeds the nesting depth any of the fixed patterns can reach
on input `s`. -/
def mfuel (s : List Char) : Nat := (s.length + 8) * 128

/-- Try to match `r` at the current position; on success return the group-1
capture and the unconsumed suffix. -/
def reTry (r : RE) (prev : Option Char) (s : List Char) : Option MRes :=
  reM (mfuel s) r none prev s (fun c _ s2 => some (c, s2))

/-- Python `re.match(r, s)` truthiness: anchored at the start only. -/
def reMatchB (r : RE) (s : List Char) : Bool := (reTry r none s).isSome

/-- Python `re.fullmatch(r, s)` truthiness: the whole string must match. -/
def reFullB (r : RE) (s : List Char) : Bool :=
  (reM (mfuel s) r none none s (fun c _ s2 => if s2.isEmpty then some (c, s2) else none)).isSome

/-- Scanner for `re.findall`: leftmost non-overlapping matches; each match
contributes group 1 if the pattern has a group, else the whole match; an
empty whole match advances by one character. -/
def findallAux : Nat → RE → Option Char → List Char → List (List Char)
  | 0, _, _, _ => []
  | fuel + 1, r, prev, s =>
    match reTry r prev s with
    | some (cap, rest) =>
      let whole := s.take (s.length - rest.length)
      let item := cap.getD whole
      if whole.isEmpty then
        match s with
        | [] => [item]
        | c :: t => item :: findallAux fuel r (some c) t
      else item :: findallAux fuel r whole.getLast? rest
    | none =>
      match s with
      | [] => []
      | c :: t => findallAux fuel r (some c) t

def findall (r : RE) (s : List Char) : List (List Char) :=
  findallAux (s.length + 1) r none s

/-! ### The field patterns of `PDFProcessor.PATTERNS`

Both `re.findall` (page text) and `re.match` (table cells) are called with
`re.IGNORECASE`, so literal letters match either case.  `re.MULTILINE` is set
only on the `findall` calls; it changes `$`, which occurs in the `name` and
`address` patterns, hence those take the flag as a parameter. -/

/-- One pattern character, case-insensitively (IGNORECASE is always set). -/
def chI (c : Char) : RE := RE.cls (fun x => x.toLower = c.toLower)

/-- A literal string, case-insensitively. -/
def litI (t : String) : RE := t.data.foldr (fun c r => RE.cat (chI c) r) RE.eps

def catL (l : List RE) : RE := l.foldr RE.cat RE.eps

/-- `r{n}`: exactly `n` copies. -/
def repN : Nat → RE → RE
  | 0, _ => RE.eps
  | n + 1, r => RE.cat r (repN n r)

/-- Greedy nest of at most `n` copies (longest first). -/
def optNest : Nat → RE → RE
  | 0, _ => RE.eps
  | n + 1, r => RE.optG (RE.cat r (optNest n r))

/-- `r{m,n}` greedy. -/
def repRange (m n : Nat) (r : RE) : RE := RE.cat (repN m r) (optNest (n - m) r)

/-- `r{m,}` greedy. -/
def repAtLeast (m : Nat) (r : RE) : RE := RE.cat (repN m r) (RE.starG r)

/-- `r+` greedy. -/
def plusG (r : RE) : RE := RE.cat r (RE.starG r)

/-- `r+?` lazy. -/
def plusL (r : RE) : RE := RE.cat r (RE.starL r)

def wsC : RE := RE.cls pyWs
def dC : RE := RE.cls Char.isDigit
def wC : RE := RE.cls pyWord
def slashDashC : RE := RE.cls (fun c => c = '/' || c = '-')
def dashDotC : RE := RE.cls (fun c => c = '-' || c = '.')
def alphaSpaceC : RE := RE.cls (fun c => c.isAlpha || pyWs c)
def emailLocalC : RE := RE.cls (fun c => c.isAlphanum || c = '.' || c = '_' || c = '%' || c = '+' || c = '-')
def emailDomC : RE := RE.cls (fun c => c.isAlphanum || c = '.' || c = '-')
def alphaC : RE := RE.cls Char.isAlpha
def anyNoNlC : RE := RE.cls (fun c => c != '\n')

/-- `(?:Check\s*#?|#)\s*(\d{4,})` -/
def reCheckNumber : RE :=
  catL [RE.alt (catL [litI "Check", RE.starG wsC, RE.optG (chI '#')]) (chI '#'),
        RE.starG wsC, RE.grp (repAtLeast 4 dC)]

/-- the first date pattern: 1-2 digits, slash-or-dash, 1-2 digits, slash-or-dash, 2-4 digits, all in one capture group -/
def reDate1 : RE :=
  RE.grp (catL [repRange 1 2 dC, slashDashC, repRange 1 2 dC, slashDashC, repRange 2 4 dC])

/-- the second date pattern: 4 digits, slash-or-dash, 1-2 digits, slash-or-dash, 1-2 digits, all in one capture group -/
def reDate2 : RE :=
  RE.grp (catL [repN 4 dC, slashDashC, repRange 1 2 dC, slashDashC, repRange 1 2 dC])

/-- `(\w{3,9}\s+\d{1,2},?\s+\d{4})` -/
def reDate3 : RE :=
  RE.grp (catL [repRange 3 9 wC, plusG wsC, repRange 1 2 dC, RE.optG (chI ','),
                plusG wsC, repN 4 dC])

/-- `(\d{1,2}\s+\w{3,9}\s+\d{4})` -/
def reDate4 : RE :=
  RE.grp (catL [repRange 1 2 dC, plusG wsC, repRange 3 9 wC, plusG wsC, repN 4 dC])

/-- `\d{1,3}(?:,\d{3})*\.\d{2}` (the shared amount core). -/
def amtCore : RE :=
  catL [repRange 1 3 dC, RE.starG (catL [chI ',', repN 3 dC]), chI '.', repN 2 dC]

/-- `\$\s*(\d{1,3}(?:,\d{3})*\.\d{2})` -/
def reAmount1 : RE := catL [chI '$', RE.starG wsC, RE.grp amtCore]

/-- `(\d{1,3}(?:,\d{3})*\.\d{2})\s*(?:USD|\$)` -/
def reAmount2 : RE :=
  catL [RE.grp amtCore, RE.starG wsC, RE.alt (litI "USD") (chI '$')]

/-- `Amount:?\s*\$?\s*(\d{1,3}(?:,\d{3})*\.\d{2})` -/
def reAmount3 : RE :=
  catL [litI "Amount", RE.optG (chI ':'), RE.starG wsC, RE.optG (chI '$'),
        RE.starG wsC, RE.grp amtCore]

/-- `(?:\+?1[-.]?)?\(?\d{3}\)?[-.]?\d{3}[-.]?\d{4}` (no capture group). -/
def rePhone : RE :=
  catL [RE.optG (catL [RE.optG (chI '+'), chI '1', RE.optG dashDotC]),
        RE.optG (chI '('), repN 3 dC, RE.optG (chI ')'), RE.optG dashDotC,
        repN 3 dC, RE.optG dashDotC, repN 4 dC]

/-- `[a-zA-Z0-9._%+-]+@[a-zA-Z0-9.-]+\.[a-zA-Z]{2,}` (no capture group). -/
def reEmail : RE :=
  catL [plusG emailLocalC, chI '@', plusG emailDomC, chI '.', repAtLeast 2 alphaC]

/-- `\b\d{3}-\d{2}-\d{4}\b` (no capture group). -/
def reSsn : RE :=
  catL [RE.wb, repN 3 dC, chI '-', repN 2 dC, chI '-', repN 4 dC, RE.wb]

/-- `\b\d{9}\b` (no capture group). -/
def reRouting : RE := catL [RE.wb, repN 9 dC, RE.wb]

/-- `(?:Account|Acct)\s*#?:?\s*(\d{4,})` -/
def reAccount : RE :=
  catL [RE.alt (litI "Account") (litI "Acct"), RE.starG wsC, RE.optG (chI '#'),
        RE.optG (chI ':'), RE.starG wsC, RE.grp (repAtLeast 4 dC)]

/-- `(?:Pay to the order of|Payee|Name):?\s*([A-Za-z\s]+?)(?=\n|$|\s{2,})`;
`ml` is the MULTILINE flag (affects `$`). -/
def reName (ml : Bool) : RE :=
  catL [RE.alt (litI "Pay to the order of") (RE.alt (litI "Payee") (litI "Name")),
        RE.optG (chI ':'), RE.starG wsC, RE.grp (plusL alphaSpaceC),
        RE.look (RE.alt (chI '\n') (RE.alt (RE.dollar ml) (repAtLeast 2 wsC)))]

/-- `(?:Address|Street):?\s*(.+?)(?=\n|$)`; `ml` is the MULTILINE flag. -/
def reAddress (ml : Bool) : RE :=
  catL [RE.alt (litI "Address") (litI "Street"), RE.optG (chI ':'),
        RE.starG wsC, RE.grp (plusL anyNoNlC),
        RE.look (RE.alt (chI '\n') (RE.dollar ml))]

/-- `PDFProcessor.PATTERNS` in dict insertion order; single-pattern entries
become one-element lists (the code branches on `isinstance(patterns, list)`
but treats both shapes identically match-wise). -/
def PATTERNS (ml : Bool) : List (String × List RE) :=
  [("check_number", [reCheckNumber]),
   ("date", [reDate1, reDate2, reDate3, reDate4]),
   ("amount", [reAmount1, reAmount2, reAmount3]),
   ("phone", [rePhone]),
   ("email", [reEmail]),
   ("ssn", [reSsn]),
   ("routing_number", [reRouting]),
   ("account_number", [reAccount]),
   ("name", [reName ml]),
   ("address", [reAddress ml])]

/-- All registered patterns with their field type, in registration order. -/
def flatPatterns (ml : Bool) : List (String × RE) :=
  (PATTERNS ml).flatMap (fun ftp => ftp.2.map (fun p => (ftp.1, p)))

/-! ### `_calculate_pattern_confidence`

The four additive components; all Python float literals are exact rationals
here (`mkRat` keeps the definitions kernel-evaluable).  The three clarity
check patterns are matched with `re.match` and no flags; their leading `^`
is redundant under `re.match` and their `$` is the non-MULTILINE one. -/

def clarityDateRE : RE :=
  catL [repRange 1 2 dC, slashDashC, repRange 1 2 dC, slashDashC, repRange 2 4 dC]

def amtStrictRE : RE :=
  catL [repRange 1 3 dC, RE.starG (catL [chI ',', repN 3 dC]), chI '.', repN 2 dC,
        RE.dollar false]

def amtLooseRE : RE := catL [plusG dC, chI '.', repN 2 dC, RE.dollar false]

def ssnStrictRE : RE :=
  catL [repN 3 dC, chI '-', repN 2 dC, chI '-', repN 4 dC, RE.dollar false]

/-- The `location_keywords` table. -/
def locationKeywords : List (String × List String) :=
  [("check_number", ["check", "number", "#"]),
   ("date", ["date", "dated", "on"]),
   ("amount", ["amount", "total", "sum", "$"]),
   ("name", ["pay to", "payee", "name"]),
   ("account_number", ["account", "acct"]),
   ("routing_number", ["routing", "aba", "rtn"])]

/-- Location score: 0.2 when a field-type keyword occurs in the 50-character
window around the first occurrence of the value in the context, 0.0 when the
context is nonempty but yields no keyword, 0.1 when the field type has no
keyword list or the context is empty (Python falsy). -/
def locationScore (ft : String) (value ctx : List Char) : ℚ :=
  match locationKeywords.find? (fun kv => kv.1 = ft) with
  | some kv =>
    if ctx.isEmpty then mkRat 1 10
    else
      match firstIdx (lowerL ctx) (lowerL value) with
      | some pos =>
        if kv.2.any (fun kw => containsSub (lowerL (sliceL ctx (pos - 50) (pos + 50))) kw.data)
        then mkRat 1 5 else 0
      | none => 0
  | none => mkRat 1 10

/-- Keywords of the context-score structural check. -/
def ctxKeywords : List String := ["date", "amount", "check", "pay"]

/-- Context score: 0.2 when the first context line containing the value (a
case-sensitive substring test) has a colon or a field-related keyword, else
0.15. -/
def contextScore (value ctx : List Char) : ℚ :=
  if ctx.isEmpty then mkRat 3 20
  else
    match (splitNl ctx).find? (fun line => containsSub line value) with
    | some line =>
      if line.contains ':' || ctxKeywords.any (fun kw => containsSub (lowerL line) kw.data)
      then mkRat 1 5 else mkRat 3 20
    | none => mkRat 3 20

def months : List String :=
  ["jan", "feb", "mar", "apr", "may", "jun", "jul", "aug", "sep", "oct", "nov", "dec"]

/-- Clarity score: the field-type-specific shape heuristics. -/
def clarityScore (ft : String) (value : List Char) : ℚ :=
  if ft = "check_number" then
    if value.length ≥ 4 && pyIsDigit value then mkRat 1 5
    else if value.length ≥ 3 then mkRat 3 20
    else mkRat 1 20
  else if ft = "date" then
    if reMatchB clarityDateRE value then mkRat 1 5
    else if months.any (fun m => containsSub (lowerL value) m.data) then mkRat 9 50
    else mkRat 1 10
  else if ft = "amount" then
    if value.contains '.' && reMatchB amtStrictRE (stripL (value.filter (fun c => c != '$')))
    then mkRat 1 5
    else if reMatchB amtLooseRE (stripL (value.filter (fun c => c != '$'))) then mkRat 9 50
    else mkRat 1 10
  else if ft = "ssn" then
    if reMatchB ssnStrictRE value then mkRat 1 5 else mkRat 1 20
  else if ft = "routing_number" then
    if value.length = 9 && pyIsDigit value then mkRat 1 5 else mkRat 1 20
  else mkRat 3 20

/-- `_calculate_pattern_confidence`: 0.4 pattern score plus the three
variable components, capped at 1.0 and rounded to two decimals. -/
def calcConfidence (ft : String) (value ctx : List Char) : ℚ :=
  round2 (qMin
    (qAdd (qAdd (qAdd (mkRat 2 5) (locationScore ft value ctx)) (contextScore value ctx))
      (clarityScore ft value)) 1)

/-! ### `_extract_fields_from_text` and dedup -/

/-- `ExtractedField` (the `location` member is never set on these code
paths and is omitted). -/
structure ExtractedField where
  name : String
  value : String
  confidence : ℚ
  page : Nat
  method : String
deriving Repr, DecidableEq

/-- All pattern matches of a page before dedup: for each field type and each
of its patterns, every `findall` hit becomes a field with the stripped value
and the confidence of the raw captured value against the page text. -/
def candidateFields (text : String) (page : Nat) : List ExtractedField :=
  (PATTERNS true).flatMap (fun ftp =>
    ftp.2.flatMap (fun p =>
      (findall p text.data).map (fun v =>
        { name := ftp.1, value := (stripL v).asString,
          confidence := calcConfidence ftp.1 v text.data,
          page := page, method := "text" })))

/-- The dedup key `(field.name, field.value)`. -/
def fieldKey (f : ExtractedField) : String × String := (f.name, f.value)

/-- One step of the `unique_fields` dict build: a new key is appended, an
existing key is overwritten in place only by a strictly higher confidence. -/
def insertBest (acc : List ExtractedField) (f : ExtractedField) : List ExtractedField :=
  if acc.any (fun g => fieldKey g = fieldKey f) then
    acc.map (fun g =>
      if fieldKey g = fieldKey f then (if qLt g.confidence f.confidence then f else g) else g)
  else acc ++ [f]

/-- The `unique_fields` dict of `_extract_fields_from_text`, as its ordered
value list. -/
def dedupBest (l : List ExtractedField) : List ExtractedField := l.foldl insertBest []

/-- `_extract_fields_from_text`. -/
def extract_fields_from_text (text : String) (page : Nat) : List ExtractedField :=
  dedupBest (candidateFields text page)

/-! ### `_identify_field_type` and `_extract_fields_from_table` -/

/-- `_identify_field_type`: strip the value, then return the first field
type one of whose patterns `re.match`es (prefix-anchored, IGNORECASE, no
MULTILINE). -/
def identify_field_type (value : String) : Option String :=
  (PATTERNS false).findSome? (fun ftp =>
    if ftp.2.any (fun p => reMatchB p (stripL value.data)) then some ftp.1 else none)

/-- One camelot/pdfplumber table: page, detection accuracy, and the row dicts
(already stringified; the dict comprehension drops falsy values, modelled by
the empty-string filter). -/
structure TableData where
  page : Nat
  accuracy : ℚ
  data : List (List (String × String))
deriving Repr, DecidableEq

/-- The cell values skipped by `_extract_fields_from_table`. -/
def skipValues : List String := ["", "none", "null", "n/a"]

/-- `_extract_fields_from_table`. -/
def extract_fields_from_table (td : TableData) : List ExtractedField :=
  td.data.flatMap (fun row =>
    (row.filter (fun kv => kv.2 != "")).flatMap (fun kv =>
      if kv.2 = "" ∨ (lowerL kv.2.data).asString ∈ skipValues then []
      else
        match identify_field_type kv.2 with
        | none => []
        | some ft =>
          [{ name := ft, value := (stripL kv.2.data).asString,
             confidence := round2 (qMul (calcConfidence ft kv.2.data [])
               (qAdd (mkRat 4 5) (qMul (mkRat 1 5) td.accuracy))),
             page := td.page, method := "table" }]))

/-! ### `_process_pdf_internal` -/

/-- The value of one text-extraction strategy (`_extract_with_pdfplumber` or
`_extract_with_pypdf2`): concatenated text, per-page texts, page count. -/
structure PyExtracted where
  text : String
  pages : List String
  pageCount : Nat
deriving Repr, DecidableEq

/-- `ExtractionResult` (processing_time, a wall-clock value, is omitted). -/
structure ExtractionResult where
  fields : List ExtractedField
  confidence : ℚ
  page_count : Nat
  filename : String
  status : String
  error_message : Option String
deriving Repr, DecidableEq

/-- `_process_pdf_internal`, with the two strategy results and the extracted
tables as inputs.  The `ValueError` raised when the fallback also produced
no text and no pages is caught by the surrounding handler, which returns an
error result carrying `str(e)`. -/
def process_pdf_internal (plumber pypdf2 : PyExtracted) (tables : List TableData)
    (filename : String) : ExtractionResult :=
  let data := if plumber.text = "" then pypdf2 else plumber
  if data.text = "" ∧ data.pageCount = 0 then
    { fields := [], confidence := 0, page_count := 0, filename := filename,
      status := "error", error_message := some "Unable to extract text from PDF" }
  else
    let textFields := data.pages.enum.flatMap (fun ip => extract_fields_from_text ip.2 (ip.1 + 1))
    let fields := textFields ++ tables.flatMap extract_fields_from_table
    { fields := fields,
      confidence :=
        if fields.isEmpty then 0
        else qDivNat (qSum (fields.map (fun f => f.confidence))) fields.length,
      page_count := data.pageCount, filename := filename,
      status := "completed", error_message := none }

/-! ### The extraction-history manager

`ExtractionHistoryManager` over its three SQLite tables, as lists of rows in
insertion order.  `uuid4()` and `datetime.now().timestamp()` are explicit
id/timestamp arguments.  The `confidence_factors` table, the mirrored write
to the separate base audit logger, the `timestamp_iso` key and the
`display_message` column (used only by the free-text search filter) are
outside what the claims touch and are not modelled. -/

/-- The structured content of the `details` JSON column (the keys this module
ever writes; `json.loads ∘ json.dumps` is the identity on it). -/
structure EventDetails where
  field_name : Option String := none
  value : Option String := none
  confidence : Option ℚ := none
  revision_id : Option Nat := none
  old_value : Option String := none
  old_confidence : Option ℚ := none
  confidence_change : Option ℚ := none
  reason : Option String := none
deriving Repr, DecidableEq

/-- One `extraction_history` row. -/
structure HistoryRow where
  id : Nat
  timestamp : ℚ
  action : String
  user_id : String
  session_id : Option String
  file_hash : Option String
  file_name : Option String
  file_size : Option Nat
  details : EventDetails
  duration_ms : Option Nat
  memory_used_mb : Option ℚ
  success : Bool
  error_message : Option String
  error_type : Option String
  severity : String
  is_user_action : Bool
deriving Repr, DecidableEq

/-- One `extraction_revisions` row. -/
structure RevisionRow where
  revision_id : Nat
  parent_revision_id : Option Nat
  timestamp : ℚ
  file_hash : String
  field_name : String
  old_value : Option String
  new_value : String
  old_confidence : Option ℚ
  new_confidence : ℚ
  changed_by : String
  reason : Option String
deriving Repr, DecidableEq

/-- One `field_extractions` row (unique per `(file_hash, field_name)`). -/
structure FieldRow where
  id : Nat
  file_hash : String
  field_name : String
  current_value : Option String
  current_confidence : Option ℚ
  original_value : Option String
  original_confidence : Option ℚ
  revision_count : Nat
  last_modified : ℚ
deriving Repr, DecidableEq

/-- The manager state: the three tables, rows in insertion order. -/
structure HM where
  history : List HistoryRow
  revisions : List RevisionRow
  fields : List FieldRow
deriving Repr, DecidableEq

def emptyHM : HM := ⟨[], [], []⟩

/-- Key test on a `field_extractions` row. -/
def frKey (fh fn : String) (fr : FieldRow) : Bool :=
  fr.file_hash == fh && fr.field_name == fn

/-- Key test on an `extraction_revisions` row. -/
def rvKey (fh fn : String) (rv : RevisionRow) : Bool :=
  rv.file_hash == fh && rv.field_name == fn

/-- `_determine_severity` (Python `if confidence and confidence < 0.7`:
`None` and `0.0` are both falsy). -/
def determine_severity (action : String) (success : Bool) (confidence : Option ℚ) : String :=
  if !success then "error"
  else if action = "error" ∨ action = "validation" then "warning"
  else if action = "extract" ∨ action = "export" then
    match confidence with
    | some c => if c ≠ 0 ∧ qLt c (mkRat 7 10) then "warning" else "success"
    | none => "success"
  else "info"

/-- The keyword parameters of `log_extraction` (the `file_info` dict is its
three used keys; `confidence_factors` is not modelled). -/
structure LogArgs where
  action : String
  user_id : String
  session_id : Option String := none
  file_hash : Option String := none
  file_name : Option String := none
  file_size : Option Nat := none
  field_name : Option String := none
  value : Option String := none
  confidence : Option ℚ := none
  details : EventDetails := {}
  duration_ms : Option Nat := none
  memory_used_mb : Option ℚ := none
  success : Bool := true
  error_message : Option String := none
  error_type : Option String := none
deriving Repr, DecidableEq

/-- `enhanced_details`: the caller's details dict with `field_name`, `value`
and `confidence` merged on top (unconditionally). -/
def mkEnhanced (a : LogArgs) : EventDetails :=
  { a.details with field_name := a.field_name, value := a.value, confidence := a.confidence }

/-- `_update_field_extraction`: update the keyed row if present, else insert
a fresh one with `original_* = current_*` and `revision_count = 0`. -/
def updateFieldExtraction (fields : List FieldRow) (fid : Nat) (fh fn v : String)
    (conf : Option ℚ) (ts : ℚ) : List FieldRow :=
  if fields.any (frKey fh fn) then
    fields.map (fun fr =>
      if frKey fh fn fr then
        { fr with current_value := some v, current_confidence := conf, last_modified := ts }
      else fr)
  else
    fields ++ [{ id := fid, file_hash := fh, field_name := fn,
                 current_value := some v, current_confidence := conf,
                 original_value := some v, original_confidence := conf,
                 revision_count := 0, last_modified := ts }]

/-- The history row one `log_extraction` call inserts. -/
def mkHistoryRow (a : LogArgs) (logId : Nat) (ts : ℚ) : HistoryRow :=
  { id := logId, timestamp := ts, action := a.action, user_id := a.user_id,
    session_id := a.session_id, file_hash := a.file_hash, file_name := a.file_name,
    file_size := a.file_size, details := mkEnhanced a, duration_ms := a.duration_ms,
    memory_used_mb := a.memory_used_mb, success := a.success,
    error_message := a.error_message, error_type := a.error_type,
    severity := determine_severity a.action a.success a.confidence,
    is_user_action := true }

/-- `log_extraction`: append one history row; when the action is `extract`
and file hash, field name and value are all truthy, upsert the
`field_extractions` row. -/
def log_extraction (hm : HM) (a : LogArgs) (logId fieldId : Nat) (ts : ℚ) : HM :=
  let hm2 : HM := { hm with history := hm.history ++ [mkHistoryRow a logId ts] }
  match a.file_hash, a.field_name, a.value with
  | some fh, some fn, some v =>
    if a.action = "extract" ∧ fh ≠ "" ∧ fn ≠ "" ∧ v ≠ "" then
      { hm2 with fields := updateFieldExtraction hm2.fields fieldId fh fn v a.confidence ts }
    else hm2
  | _, _, _ => hm2

/-- The revision row `add_revision` inserts. -/
def mkRevision (fh fn old_value new_value : String) (old_conf new_conf : ℚ)
    (changed_by : String) (reason : Option String) (parent : Option Nat)
    (rid : Nat) (ts : ℚ) : RevisionRow :=
  { revision_id := rid, parent_revision_id := parent, timestamp := ts,
    file_hash := fh, field_name := fn, old_value := some old_value,
    new_value := new_value, old_confidence := some old_conf,
    new_confidence := new_conf, changed_by := changed_by, reason := reason }

/-- The SQL `UPDATE` applied to the keyed `field_extractions` row by
`add_revision`. -/
def applyRevUpdate (fr : FieldRow) (new_value : String) (new_conf ts : ℚ) : FieldRow :=
  { fr with
    current_value := some new_value, current_confidence := some new_conf,
    revision_count := fr.revision_count + 1, last_modified := ts }

/-- The arguments of the `log_extraction` call made at the end of
`add_revision`. -/
def revisionLogArgs (fh fn old_value new_value : String) (old_conf new_conf : ℚ)
    (changed_by : String) (reason : Option String) (rid : Nat) : LogArgs :=
  { action := "revision", user_id := changed_by, file_hash := some fh,
    field_name := some fn, value := some new_value, confidence := some new_conf,
    details := { revision_id := some rid, old_value := some old_value,
                 old_confidence := some old_conf,
                 confidence_change := some (qSub new_conf old_conf),
                 reason := reason } }

/-- `add_revision`: insert the revision row, run the SQL `UPDATE` of the
keyed `field_extractions` row (a no-op when no row matches), then log a
`revision` event (which, not being `extract`, leaves `field_extractions`
alone).  `ts` is the revision timestamp, `ts2` the later event timestamp. -/
def add_revision (hm : HM) (fh fn old_value new_value : String)
    (old_conf new_conf : ℚ) (changed_by : String) (reason : Option String)
    (parent : Option Nat) (rid logId fieldId : Nat) (ts ts2 : ℚ) : HM :=
  let rev := mkRevision fh fn old_value new_value old_conf new_conf changed_by reason parent rid ts
  let hm2 : HM :=
    { hm with
      revisions := hm.revisions ++ [rev],
      fields := hm.fields.map (fun fr =>
        if frKey fh fn fr then applyRevUpdate fr new_value new_conf ts else fr) }
  log_extraction hm2
    (revisionLogArgs fh fn old_value new_value old_conf new_conf changed_by reason rid)
    logId fieldId ts2

/-- `AuditSearchFilters` (the `search_text` LIKE filter is not modelled and
`min_confidence`/`max_confidence` are never read by `search_history`). -/
structure SearchFilters where
  user_id : Option String := none
  session_id : Option String := none
  file_hash : Option String := none
  actions : Option (List String) := none
  success_only : Option Bool := none
  start_ts : Option ℚ := none
  end_ts : Option ℚ := none
  limit : Nat := 100
  offset : Nat := 0
deriving Repr, DecidableEq

/-- The conjunctive WHERE clause built by `search_history`; each optional
filter is added only when the Python value is truthy (`success_only`:
`is not None`). -/
def rowPasses (f : SearchFilters) (r : HistoryRow) : Bool :=
  (match f.user_id with
   | some u => if u = "" then true else r.user_id == u
   | none => true) &&
  (match f.session_id with
   | some s => if s = "" then true else r.session_id == some s
   | none => true) &&
  (match f.file_hash with
   | some h => if h = "" then true else r.file_hash == some h
   | none => true) &&
  (match f.actions with
   | some l => if l = [] then true else l.contains r.action
   | none => true) &&
  (match f.success_only with
   | some b => r.success == b
   | none => true) &&
  (match f.start_ts with
   | some t => qLe t r.timestamp
   | none => true) &&
  (match f.end_ts with
   | some t => qLe r.timestamp t
   | none => true)

/-- `ExtractionHistoryEntry` as built by `search_history`. -/
structure HistoryEntry where
  timestamp : ℚ
  file_name : String
  file_hash : String
  action : String
  field_name : Option String
  old_value : Option String
  new_value : Option String
  confidence : Option ℚ
  confidence_change : Option ℚ
  user_action : Bool
  success : Bool
  duration_ms : Option Nat
  display_icon : String
  display_color : String
deriving Repr, DecidableEq

/-- `_get_action_display_config`. -/
def actionDisplay (action : String) : String × String :=
  if action = "upload" then ("Upload", "blue")
  else if action = "extract" then ("FileText", "green")
  else if action = "edit" then ("Edit3", "yellow")
  else if action = "export" then ("Download", "purple")
  else if action = "delete" then ("Trash2", "red")
  else if action = "view" then ("Eye", "gray")
  else if action = "error" then ("AlertCircle", "red")
  else if action = "security" then ("Shield", "indigo")
  else if action = "revision" then ("RefreshCw", "orange")
  else if action = "confidence_change" then ("TrendingUp", "blue")
  else if action = "validation" then ("CheckCircle", "green")
  else ("Activity", "gray")

/-- Python `a or dflt` on an optional string column. -/
def pyOrStr (a : Option String) (dflt : String) : String :=
  match a with
  | some s => if s = "" then dflt else s
  | none => dflt

/-- Row-to-entry conversion in `search_history` (`new_value` is
`details.get('value') or details.get('new_value')`; no caller of this module
writes a `new_value` details key). -/
def toEntry (r : HistoryRow) : HistoryEntry :=
  { timestamp := r.timestamp, file_name := pyOrStr r.file_name "Unknown",
    file_hash := pyOrStr r.file_hash "", action := r.action,
    field_name := r.details.field_name, old_value := r.details.old_value,
    new_value := (match r.details.value with
                  | some s => if s = "" then none else some s
                  | none => none),
    confidence := r.details.confidence,
    confidence_change := r.details.confidence_change,
    user_action := r.is_user_action, success := r.success,
    duration_ms := r.duration_ms,
    display_icon := (actionDisplay r.action).1,
    display_color := (actionDisplay r.action).2 }

/-- Insertion step of `ORDER BY timestamp DESC` (SQLite leaves the order of
equal timestamps unspecified; the claims hypothesise distinct timestamps). -/
def insertDescRow (r : HistoryRow) : List HistoryRow → List HistoryRow
  | [] => [r]
  | x :: xs => if qLt x.timestamp r.timestamp then r :: x :: xs else x :: insertDescRow r xs

def sortDescRows (l : List HistoryRow) : List HistoryRow := l.foldr insertDescRow []

/-- `search_history`: filter, newest-first order, `LIMIT limit OFFSET
offset`, convert to entries. -/
def search_history (hm : HM) (f : SearchFilters) : List HistoryEntry :=
  ((((sortDescRows (hm.history.filter (rowPasses f))).drop f.offset).take f.limit).map toEntry)

/-- Insertion step of `ORDER BY timestamp ASC`. -/
def insertAscRev (r : RevisionRow) : List RevisionRow → List RevisionRow
  | [] => [r]
  | x :: xs => if qLt r.timestamp x.timestamp then r :: x :: xs else x :: insertAscRev r xs

def sortAscRevs (l : List RevisionRow) : List RevisionRow := l.foldr insertAscRev []

/-- `ExtractionFieldHistory` as built by `get_field_history`. -/
structure FieldHistory where
  field_name : String
  current_value : Option String
  current_confidence : Option ℚ
  original_value : Option String
  original_confidence : Option ℚ
  revision_count : Nat
  revisions : List RevisionRow
  last_modified : ℚ
deriving Repr, DecidableEq

/-- `get_field_history`: `none` when no `field_extractions` row has the key,
else the row plus its revisions ordered oldest-first. -/
def get_field_history (hm : HM) (fh fn : String) : Option FieldHistory :=
  match hm.fields.find? (frKey fh fn) with
  | none => none
  | some fr =>
    some { field_name := fr.field_name, current_value := fr.current_value,
           current_confidence := fr.current_confidence,
           original_value := fr.original_value,
           original_confidence := fr.original_confidence,
           revision_count := fr.revision_count,
           revisions := sortAscRevs (hm.revisions.filter (rvKey fh fn)),
           last_modified := fr.last_modified }

/-- One `add_revision` call of a repeated-revision scenario: the value/
confidence payload plus the fresh ids and the two clock reads. -/
structure RevCall where
  old_value : String
  new_value : String
  old_confidence : ℚ
  new_confidence : ℚ
  changed_by : String
  reason : Option String := none
  parent : Option Nat := none
  rid : Nat
  logId : Nat
  fieldId : Nat
  ts : ℚ
  ts2 : ℚ
deriving Repr, DecidableEq

/-- A sequence of `add_revision` calls against one `(file_hash, field_name)`. -/
def applyRevs (fh fn : String) (hm : HM) (cs : List RevCall) : HM :=
  cs.foldl (fun h c =>
    add_revision h fh fn c.old_value c.new_value c.old_confidence c.new_confidence
      c.changed_by c.reason c.parent c.rid c.logId c.fieldId c.ts c.ts2) hm

/-- One `log_extraction` call: its arguments, fresh ids, and clock read. -/
structure LogCall where
  args : LogArgs
  logId : Nat
  fieldId : Nat
  ts : ℚ
deriving Repr, DecidableEq

def applyLogs (hm : HM) (ls : List LogCall) : HM :=
  ls.foldl (fun h c => log_extraction h c.args c.logId c.fieldId c.ts) hm

/-! ### Spec-side characterisations

Predicates stating spec sentences independently of the embedded control
flow; the claim theorems relate them to the embedded functions. -/

/-- Spec wording for the 0.2 location-score case: some keyword of the field
type occurs within the 50-character window around (the first occurrence of)
the value in the context, both sides lowercased. -/
def keywordNearby (kws : List String) (v c : List Char) : Prop :=
  ∃ pos, firstIdx (lowerL c) (lowerL v) = some pos ∧
    ∃ kw ∈ kws, containsSub (lowerL (sliceL c (pos - 50) (pos + 50))) kw.data = true

/-- Spec wording for cell identification: the first registered
`(field type, pattern)` pair, in registration order, whose pattern matches a
prefix of the trimmed value. -/
def firstPrefixField (value : String) : Option String :=
  ((flatPatterns false).find? (fun ftp => reMatchB ftp.2 (stripL value.data))).map (fun ftp => ftp.1)

/-! ## Bridge lemmas: the executable rational operations agree with the
ordinary field operations -/

theorem mkRat_eq_div (n : ℤ) (d : ℕ) : mkRat n d = (n : ℚ) / (d : ℚ) := by
  rw [Rat.mkRat_eq_divInt, Rat.divInt_eq_div]
  norm_cast

theorem den_cast_ne_zero (a : ℚ) : ((a.den : ℚ)) ≠ 0 :=
  Nat.cast_ne_zero.mpr a.den_nz

theorem num_eq_self_mul_den (a : ℚ) : (a.num : ℚ) = a * a.den := by
  have h := Rat.num_div_den a
  rwa [div_eq_iff (den_cast_ne_zero a)] at h

theorem qAdd_eq (a b : ℚ) : qAdd a b = a + b := by
  rw [qAdd, mkRat_eq_div]
  push_cast
  rw [div_eq_iff (mul_ne_zero (den_cast_ne_zero a) (den_cast_ne_zero b))]
  rw [num_eq_self_mul_den, num_eq_self_mul_den]
  ring

theorem qMul_eq (a b : ℚ) : qMul a b = a * b := by
  rw [qMul, mkRat_eq_div]
  push_cast
  rw [div_eq_iff (mul_ne_zero (den_cast_ne_zero a) (den_cast_ne_zero b))]
  rw [num_eq_self_mul_den, num_eq_self_mul_den]
  ring

theorem qSub_eq (a b : ℚ) : qSub a b = a - b := by
  rw [qSub, mkRat_eq_div]
  push_cast
  rw [div_eq_iff (mul_ne_zero (den_cast_ne_zero a) (den_cast_ne_zero b))]
  rw [num_eq_self_mul_den, num_eq_self_mul_den]
  ring

theorem qLe_iff (a b : ℚ) : qLe a b = true ↔ a ≤ b := by
  rw [qLe, Bool.not_eq_true']
  exact Iff.rfl

theorem qLt_iff (a b : ℚ) : qLt a b = true ↔ a < b := Iff.rfl

theorem qMin_eq (a b : ℚ) : qMin a b = min a b := by
  rw [qMin, min_def]
  by_cases h : a ≤ b
  · rw [if_pos ((qLe_iff a b).mpr h), if_pos h]
  · rw [if_neg (fun hq => h ((qLe_iff a b).mp hq)), if_neg h]

theorem qFloor_eq (q : ℚ) : qFloor q = ⌊q⌋ := by
  rw [qFloor, Int.fdiv_eq_ediv _ (by positivity), Rat.floor_def]

theorem round2_eq (q : ℚ) : round2 q = ((round (100 * q) : ℤ) : ℚ) / 100 := by
  rw [round2, mkRat_eq_div, qFloor_eq, qAdd_eq, qMul_eq, round_eq, mkRat_eq_div]
  norm_num
  rw [mul_comm]

theorem qDivNat_eq (q : ℚ) (n : ℕ) (h : n ≠ 0) : qDivNat q n = q / n := by
  rw [qDivNat, mkRat_eq_div]
  push_cast
  rw [div_eq_div_iff (mul_ne_zero (den_cast_ne_zero q) (Nat.cast_ne_zero.mpr h))
    (Nat.cast_ne_zero.mpr h)]
  rw [num_eq_self_mul_den]
  ring

/-! ## Bounds of the scorer components -/

theorem locationScore_bounds (ft : String) (v c : List Char) :
    0 ≤ locationScore ft v c ∧ locationScore ft v c ≤ 1 / 5 := by
  unfold locationScore
  split
  · split_ifs with h
    · rw [mkRat_eq_div]; norm_num
    · split
      · split_ifs
        · rw [mkRat_eq_div]; norm_num
        · norm_num
      · norm_num
  · rw [mkRat_eq_div]; norm_num

theorem contextScore_bounds (v c : List Char) :
    0 ≤ contextScore v c ∧ contextScore v c ≤ 1 / 5 := by
  unfold contextScore
  split_ifs with h
  · rw [mkRat_eq_div]; norm_num
  · split
    · split_ifs
      · rw [mkRat_eq_div]; norm_num
      · rw [mkRat_eq_div]; norm_num
    · rw [mkRat_eq_div]; norm_num

theorem clarityScore_bounds (ft : String) (v : List Char) :
    0 ≤ clarityScore ft v ∧ clarityScore ft v ≤ 1 / 5 := by
  unfold clarityScore
  split_ifs <;> rw [mkRat_eq_div] <;> norm_num

/-- C1. For every field type, value string and context string, the
confidence scorer returns a value in [0, 1], an integer number of
hundredths (two decimal places), capped at 1. -/
theorem C1_confidence_bounds (ft : String) (v ctx : List Char) :
    0 ≤ calcConfidence ft v ctx ∧ calcConfidence ft v ctx ≤ 1 ∧
    ∃ n : ℕ, n ≤ 100 ∧ calcConfidence ft v ctx = (n : ℚ) / 100 := by
  have hl := locationScore_bounds ft v ctx
  have hc := contextScore_bounds v ctx
  have hk := clarityScore_bounds ft v
  rw [calcConfidence, qAdd_eq, qAdd_eq, qAdd_eq, qMin_eq]
  set t := mkRat 2 5 + locationScore ft v ctx + contextScore v ctx + clarityScore ft v with ht
  have h25 : (mkRat 2 5 : ℚ) = 2 / 5 := by rw [mkRat_eq_div]; norm_num
  have ht0 : 0 ≤ t := by rw [ht, h25]; linarith [hl.1, hc.1, hk.1]
  have hm0 : 0 ≤ min t 1 := le_min ht0 (by norm_num)
  have hm1 : min t 1 ≤ 1 := min_le_right t 1
  rw [round2_eq]
  have mono : ∀ x y : ℚ, x ≤ y → round x ≤ round y := by
    intro x y h
    rw [round_eq, round_eq]
    exact Int.floor_mono (by linarith)
  have hr0 : 0 ≤ round (100 * min t 1) := by
    have h := mono 0 (100 * min t 1) (by linarith)
    rwa [round_zero] at h
  have hr1 : round (100 * min t 1) ≤ 100 := by
    have h := mono (100 * min t 1) ((100 : ℕ) : ℚ) (by push_cast; linarith)
    rwa [round_natCast] at h
  refine ⟨by positivity, ?_, ⟨(round (100 * min t 1)).toNat, ?_, ?_⟩⟩
  · rw [div_le_one (by norm_num : (0:ℚ) < 100)]
    exact_mod_cast hr1
  · omega
  · have h := Int.toNat_of_nonneg hr0
    congr 1
    exact_mod_cast h.symm

/-- C3 counterexample.  For field type `email` — which has no entry in the
keyword table — with a nonempty context in which the value does not even
occur, the code returns 0.1, where the claim demands 0.0 (context supplied,
no keyword of the field type within 50 characters of the value). -/
theorem C3_counterexample :
    locationScore "email" "a@b.com".data "xyz".data = 1 / 10 ∧
    "xyz".data ≠ [] ∧
    locationKeywords.find? (fun kv => kv.1 = "email") = none ∧
    firstIdx (lowerL "xyz".data) (lowerL "a@b.com".data) = none ∧
    (1 : ℚ) / 10 ≠ 0 := by
  refine ⟨?_, by decide, by decide, by decide, by norm_num⟩
  rw [show locationScore "email" "a@b.com".data "xyz".data = mkRat 1 10 from rfl,
    mkRat_eq_div]
  norm_num

/-- C3, amended.  The location component is: for a field type with a keyword
list and a supplied (nonempty) context, 0.2 when a keyword occurs in the
50-character window around the value and 0.0 otherwise (also when the value
does not occur in the context); and 0.1 whenever the field type has no
keyword list or no context is supplied. -/
theorem C3_location_score (ft : String) (v c : List Char) :
    (∀ p, locationKeywords.find? (fun kv => kv.1 = ft) = some p → c ≠ [] →
      (keywordNearby p.2 v c → locationScore ft v c = 1 / 5) ∧
      (¬ keywordNearby p.2 v c → locationScore ft v c = 0)) ∧
    ((locationKeywords.find? (fun kv => kv.1 = ft) = none ∨ c = []) →
      locationScore ft v c = 1 / 10) := by
  constructor
  · intro p hp hc
    have hce : c.isEmpty = false := by
      rw [List.isEmpty_eq_false]
      exact hc
    constructor
    · intro hk
      obtain ⟨pos, hpos, kw, hkw, hcont⟩ := hk
      simp only [locationScore, hp, hce, Bool.false_eq_true, if_false, hpos]
      rw [if_pos (by rw [List.any_eq_true]; exact ⟨kw, hkw, hcont⟩), mkRat_eq_div]
      norm_num
    · intro hk
      simp only [locationScore, hp, hce, Bool.false_eq_true, if_false]
      cases heq : firstIdx (lowerL c) (lowerL v) with
      | none => simp [heq]
      | some pos =>
        simp only [heq]
        rw [if_neg]
        intro hany
        rw [List.any_eq_true] at hany
        obtain ⟨kw, hkw, hcont⟩ := hany
        exact hk ⟨pos, heq, kw, hkw, hcont⟩
  · intro h
    rcases h with h | h
    · simp only [locationScore, h]
      rw [mkRat_eq_div]
      norm_num
    · subst h
      cases hfind : locationKeywords.find? (fun kv => kv.1 = ft) with
      | none =>
        simp only [locationScore, hfind]
        rw [mkRat_eq_div]
        norm_num
      | some p =>
        simp only [locationScore, hfind, List.isEmpty_nil, if_true]
        rw [mkRat_eq_div]
        norm_num

/-- C3 witness: `check_number` has keywords and the keyword `check` sits in
the window, so the theorem yields the 0.2 branch at this concrete input. -/
theorem C3_location_score_witness :
    locationScore "check_number" "1234".data "Check # 1234".data = 1 / 5 := by
  have h := (C3_location_score "check_number" "1234".data "Check # 1234".data).1
    ("check_number", ["check", "number", "#"]) (by decide) (by decide)
  exact h.1 ⟨8, by decide, "check", by decide, by decide⟩

/-! ## C2: dedup keeps exactly one best entry per key -/

theorem insertBest_inv (seen acc : List ExtractedField) (x : ExtractedField)
    (h1 : (acc.map fieldKey).Nodup)
    (h2 : ∀ f ∈ acc, f ∈ seen ∧
      ∀ g ∈ seen, fieldKey g = fieldKey f → g.confidence ≤ f.confidence)
    (h3 : ∀ g ∈ seen, ∃ f ∈ acc, fieldKey f = fieldKey g) :
    ((insertBest acc x).map fieldKey).Nodup ∧
    (∀ f ∈ insertBest acc x, f ∈ seen ++ [x] ∧
      ∀ g ∈ seen ++ [x], fieldKey g = fieldKey f → g.confidence ≤ f.confidence) ∧
    (∀ g ∈ seen ++ [x], ∃ f ∈ insertBest acc x, fieldKey f = fieldKey g) := by
  unfold insertBest
  by_cases hmem : (acc.any (fun g => fieldKey g = fieldKey x)) = true
  · rw [if_pos hmem]
    rw [List.any_eq_true] at hmem
    simp only [decide_eq_true_eq] at hmem
    refine ⟨?_, ?_, ?_⟩
    · have hkeys : ((acc.map (fun g =>
          if fieldKey g = fieldKey x then (if qLt g.confidence x.confidence then x else g) else g)).map fieldKey)
          = acc.map fieldKey := by
        rw [List.map_map]
        apply List.map_congr_left
        intro g hg
        by_cases hk : fieldKey g = fieldKey x
        · by_cases hlt : (qLt g.confidence x.confidence) = true <;>
            simp [Function.comp, hk, hlt]
        · simp [Function.comp, hk]
      rw [hkeys]
      exact h1
    · intro f hf
      rw [List.mem_map] at hf
      obtain ⟨g, hg, hfg⟩ := hf
      subst hfg
      by_cases hk : fieldKey g = fieldKey x
      · by_cases hlt : (qLt g.confidence x.confidence) = true
        · simp only [hk, if_true, hlt]
          refine ⟨List.mem_append_right _ (by simp), fun g2 hg2 hkey => ?_⟩
          rcases List.mem_append.mp hg2 with hg2 | hg2
          · have hle := (h2 g hg).2 g2 hg2 (by rw [hkey, ← hk])
            have hlt2 := (qLt_iff g.confidence x.confidence).mp hlt
            linarith
          · obtain rfl : x = g2 := by symm; simpa using hg2
            exact le_refl _
        · simp only [hk, if_true, hlt, if_false]
          refine ⟨List.mem_append_left _ (h2 g hg).1, fun g2 hg2 hkey => ?_⟩
          rcases List.mem_append.mp hg2 with hg2 | hg2
          · exact (h2 g hg).2 g2 hg2 hkey
          · obtain rfl : x = g2 := by symm; simpa using hg2
            have := (qLt_iff g.confidence x.confidence).not.mp (by simpa using hlt)
            exact le_of_not_lt this
      · simp only [hk, if_false]
        refine ⟨List.mem_append_left _ (h2 g hg).1, fun g2 hg2 hkey => ?_⟩
        rcases List.mem_append.mp hg2 with hg2 | hg2
        · exact (h2 g hg).2 g2 hg2 hkey
        · obtain rfl : x = g2 := by symm; simpa using hg2
          exact absurd hkey.symm hk
    · intro g2 hg2
      rcases List.mem_append.mp hg2 with hg2 | hg2
      · obtain ⟨f, hf, hkey⟩ := h3 g2 hg2
        refine ⟨if fieldKey f = fieldKey x then (if qLt f.confidence x.confidence then x else f) else f,
          List.mem_map_of_mem _ hf, ?_⟩
        by_cases hk : fieldKey f = fieldKey x
        · by_cases hlt : (qLt f.confidence x.confidence) = true <;>
            simp [hk, hlt, ← hkey]
        · rw [if_neg hk]
          exact hkey
      · obtain rfl : x = g2 := by symm; simpa using hg2
        obtain ⟨g, hg, hk⟩ := hmem
        refine ⟨if fieldKey g = fieldKey x then (if qLt g.confidence x.confidence then x else g) else g,
          List.mem_map_of_mem _ hg, ?_⟩
        by_cases hlt : (qLt g.confidence x.confidence) = true <;> simp [hk, hlt]
  · rw [if_neg hmem]
    have hnot : ∀ g ∈ acc, fieldKey g ≠ fieldKey x := by
      intro g hg
      rw [List.any_eq_true] at hmem
      simp only [decide_eq_true_eq] at hmem
      exact fun hk => hmem ⟨g, hg, hk⟩
    refine ⟨?_, ?_, ?_⟩
    · rw [List.map_append]
      rw [List.nodup_append]
      refine ⟨h1, List.nodup_singleton _, ?_⟩
      intro a ha hb
      simp only [List.map_cons, List.map_nil, List.mem_singleton] at hb
      subst hb
      rw [List.mem_map] at ha
      obtain ⟨g, hg, hkg⟩ := ha
      exact hnot g hg hkg
    · intro f hf
      rcases List.mem_append.mp hf with hf | hf
      · refine ⟨List.mem_append_left _ (h2 f hf).1, fun g2 hg2 hkey => ?_⟩
        rcases List.mem_append.mp hg2 with hg2 | hg2
        · exact (h2 f hf).2 g2 hg2 hkey
        · obtain rfl : x = g2 := by symm; simpa using hg2
          exact absurd hkey (fun hk => hnot f hf hk.symm)
      · obtain rfl : x = f := by symm; simpa using hf
        refine ⟨List.mem_append_right _ (by simp), fun g2 hg2 hkey => ?_⟩
        rcases List.mem_append.mp hg2 with hg2 | hg2
        · obtain ⟨f2, hf2, hkey2⟩ := h3 g2 hg2
          exact absurd (hkey2.trans hkey) (hnot f2 hf2)
        · obtain rfl : x = g2 := by symm; simpa using hg2
          exact le_refl _
    · intro g2 hg2
      rcases List.mem_append.mp hg2 with hg2 | hg2
      · obtain ⟨f, hf, hkey⟩ := h3 g2 hg2
        exact ⟨f, List.mem_append_left _ hf, hkey⟩
      · obtain rfl : x = g2 := by symm; simpa using hg2
        exact ⟨x, List.mem_append_right _ (by simp), rfl⟩

theorem foldl_insertBest_inv : ∀ (l seen acc : List ExtractedField),
    (acc.map fieldKey).Nodup →
    (∀ f ∈ acc, f ∈ seen ∧
      ∀ g ∈ seen, fieldKey g = fieldKey f → g.confidence ≤ f.confidence) →
    (∀ g ∈ seen, ∃ f ∈ acc, fieldKey f = fieldKey g) →
    (((l.foldl insertBest acc).map fieldKey).Nodup ∧
     (∀ f ∈ l.foldl insertBest acc, f ∈ seen ++ l ∧
        ∀ g ∈ seen ++ l, fieldKey g = fieldKey f → g.confidence ≤ f.confidence) ∧
     (∀ g ∈ seen ++ l, ∃ f ∈ l.foldl insertBest acc, fieldKey f = fieldKey g))
  | [], seen, acc, h1, h2, h3 => by
    simpa using ⟨h1, h2, h3⟩
  | x :: l, seen, acc, h1, h2, h3 => by
    obtain ⟨s1, s2, s3⟩ := insertBest_inv seen acc x h1 h2 h3
    have ih := foldl_insertBest_inv l (seen ++ [x]) (insertBest acc x) s1 s2 s3
    simpa [List.append_assoc] using ih

/-- C2 counterexample.  A run whose two pages both contain the value `1234`
as a check number (with different surrounding context, hence different
confidence) retains TWO entries with the identical key
`("check_number", "1234")` and differing confidences: deduplication is
applied per page only, and the orchestrator concatenates page results. -/
theorem C2_counterexample :
    (process_pdf_internal
        { text := "Check # 1234\n# 1234\n", pages := ["Check # 1234", "# 1234"], pageCount := 2 }
        { text := "", pages := [], pageCount := 0 } [] "f.pdf").fields =
      [{ name := "check_number", value := "1234", confidence := 1, page := 1, method := "text" },
       { name := "check_number", value := "1234", confidence := mkRat 19 20, page := 2, method := "text" }] ∧
    fieldKey { name := "check_number", value := "1234", confidence := (1 : ℚ), page := 1, method := "text" } =
      fieldKey { name := "check_number", value := "1234", confidence := mkRat 19 20, page := 2, method := "text" } ∧
    (1 : ℚ) ≠ mkRat 19 20 := by
  refine ⟨by decide, rfl, ?_⟩
  rw [mkRat_eq_div]
  norm_num

/-- C2, amended.  Within one page (one `_extract_fields_from_text` call),
dedup works as claimed: the returned keys are pairwise distinct, every
returned field is one of the raw candidate matches and carries the maximal
confidence among same-key candidates, and every candidate key is
represented.  Across pages (and the table path) no deduplication happens —
see the counterexample. -/
theorem C2_dedup_keep_best (text : String) (page : Nat) :
    ((extract_fields_from_text text page).map fieldKey).Nodup ∧
    (∀ f ∈ extract_fields_from_text text page,
       f ∈ candidateFields text page ∧
       ∀ g ∈ candidateFields text page, fieldKey g = fieldKey f →
         g.confidence ≤ f.confidence) ∧
    (∀ g ∈ candidateFields text page,
       ∃ f ∈ extract_fields_from_text text page, fieldKey f = fieldKey g) := by
  have h := foldl_insertBest_inv (candidateFields text page) [] []
    (by simp) (by simp) (by simp)
  simpa [extract_fields_from_text, dedupBest] using h

/-- C2 witness: the theorem applied to a concrete page; the unique candidate
key is represented in the dedup output. -/
theorem C2_dedup_keep_best_witness :
    ∃ f ∈ extract_fields_from_text "Check # 1234" 1,
      fieldKey f = ("check_number", "1234") := by
  have h := (C2_dedup_keep_best "Check # 1234" 1).2.2
    { name := "check_number", value := "1234", confidence := 1, page := 1, method := "text" }
    (by decide)
  simpa using h

/-! ## C7: table-cell matching -/

theorem find?_pairs (m : RE → Bool) (ft : String) : ∀ (ps : List RE) (rest : List (String × RE)),
    (ps.map (fun p => (ft, p)) ++ rest).find? (fun q => m q.2)
    = ((ps.find? m).map (fun p => (ft, p))).orElse (fun _ => rest.find? (fun q => m q.2))
  | [], rest => by simp
  | p :: ps, rest => by
    cases hm : m p
    · rw [List.map_cons, List.cons_append, List.find?_cons_of_neg _ (by simp [hm]),
        List.find?_cons_of_neg _ (by simp [hm])]
      exact find?_pairs m ft ps rest
    · rw [List.map_cons, List.cons_append, List.find?_cons_of_pos _ (by simp [hm]),
        List.find?_cons_of_pos _ (by simp [hm])]
      rfl

/-- The nested registration-order loop with early return equals a single
`find?` over the flattened `(field type, pattern)` list. -/
theorem findSome?_flat (m : RE → Bool) : ∀ (L : List (String × List RE)),
    L.findSome? (fun ftp => if ftp.2.any m then some ftp.1 else none)
    = ((L.flatMap (fun ftp => ftp.2.map (fun p => (ftp.1, p)))).find?
        (fun q => m q.2)).map (fun q => q.1)
  | [] => rfl
  | (ft, ps) :: L => by
    rw [List.flatMap_cons, find?_pairs]
    by_cases h : (ps.any m) = true
    · obtain ⟨p, hp, hm⟩ := List.any_eq_true.mp h
      have hf : (ps.find? m).isSome := List.find?_isSome.mpr ⟨p, hp, hm⟩
      obtain ⟨p0, hp0⟩ := Option.isSome_iff_exists.mp hf
      rw [hp0, List.findSome?_cons, if_pos h]
      rfl
    · have hn : ps.find? m = none := by
        rw [List.find?_eq_none]
        intro q hq hmq
        exact h (List.any_eq_true.mpr ⟨q, hq, hmq⟩)
      rw [hn, List.findSome?_cons, if_neg h]
      exact findSome?_flat m L

/-- C7 counterexample.  The cell value `123-45-6789 extra` gets attributed
the field type `ssn`, although no registered pattern matches the WHOLE
trimmed value: `re.match` anchors only at the start, so the `ssn` pattern
matching the prefix `123-45-6789` suffices. -/
theorem C7_counterexample :
    identify_field_type "123-45-6789 extra" = some "ssn" ∧
    ((flatPatterns false).all
      (fun ftp => !(reFullB ftp.2 (stripL "123-45-6789 extra".data)))) = true :=
  ⟨by decide, by decide⟩

/-- C7, amended.  Cell matching: (1) `_identify_field_type` returns exactly
the first field type, in registration order, one of whose patterns matches a
PREFIX of the trimmed value (anchored at the start, not a search, but not
required to cover the whole value); (2) blank or `none`/`null`/`n/a` cell
values (case-insensitively) contribute no field; (3) a cell contributes at
most one field. -/
theorem C7_cell_matching :
    (∀ v : String, identify_field_type v = firstPrefixField v) ∧
    (∀ page accuracy col v, (lowerL v.data).asString ∈ skipValues →
      extract_fields_from_table { page := page, accuracy := accuracy, data := [[(col, v)]] } = []) ∧
    (∀ page accuracy col v,
      (extract_fields_from_table
        { page := page, accuracy := accuracy, data := [[(col, v)]] }).length ≤ 1) := by
  refine ⟨?_, ?_, ?_⟩
  · intro v
    rw [identify_field_type, firstPrefixField, flatPatterns]
    exact findSome?_flat (fun p => reMatchB p (stripL v.data)) (PATTERNS false)
  · intro page accuracy col v hskip
    by_cases hv : v = ""
    · simp [extract_fields_from_table, hv]
    · simp [extract_fields_from_table, hv, hskip]
  · intro page accuracy col v
    by_cases hv : v = ""
    · simp [extract_fields_from_table, hv]
    · by_cases hskip : (lowerL v.data).asString ∈ skipValues
      · simp [extract_fields_from_table, hv, hskip]
      · cases hid : identify_field_type v <;>
          simp [extract_fields_from_table, hv, hskip, hid]

/-- C7 witness: a `NULL` cell (case-insensitive skip) contributes nothing. -/
theorem C7_cell_matching_witness :
    extract_fields_from_table { page := 1, accuracy := 1, data := [[("c", "NULL")]] } = [] :=
  C7_cell_matching.2.1 1 1 "c" "NULL" (by decide)

/-! ## C5: trimmed values; emptiness -/

/-- No registered pattern matches a prefix of the empty string, so a value
that strips to nothing is never identified. -/
theorem identify_of_strip_empty (v : String) (h : stripL v.data = []) :
    identify_field_type v = none := by
  rw [identify_field_type]
  simp only [h]
  decide

/-- C5 counterexample.  On the page text `"Name:   "` the `name` pattern
captures a lone space (the lazy group backtracks into the whitespace run and
`$` satisfies the lookahead), the captured value strips to the empty string,
and the field is stored anyway — nothing discards empty-after-trim values. -/
theorem C5_counterexample :
    extract_fields_from_text "Name:   " 1 =
      [{ name := "name", value := "", confidence := mkRat 19 20, page := 1, method := "text" }] ∧
    ({ name := "name", value := "", confidence := mkRat 19 20, page := 1,
       method := "text" } : ExtractedField).value = "" :=
  ⟨by decide, rfl⟩

/-- C5, amended.  Every stored value is the whitespace-trim of the raw
captured/cell value, and TABLE-path values are never empty after trimming
(no pattern identifies an all-whitespace cell); but text-path values can be
empty, because no discard step exists — see the counterexample. -/
theorem C5_trimmed_values :
    (∀ text page f, f ∈ extract_fields_from_text text page →
       ∃ raw : List Char, f.value = (stripL raw).asString) ∧
    (∀ td f, f ∈ extract_fields_from_table td →
       (∃ raw : List Char, f.value = (stripL raw).asString) ∧ f.value ≠ "") := by
  constructor
  · intro text page f hf
    have h := (foldl_insertBest_inv (candidateFields text page) [] []
      (by simp) (by simp) (by simp)).2.1
    obtain ⟨hfc, -⟩ := h f (by simpa [extract_fields_from_text, dedupBest] using hf)
    rw [List.nil_append] at hfc
    simp only [candidateFields, List.mem_flatMap, List.mem_map] at hfc
    obtain ⟨ftp, -, p, -, v, -, rfl⟩ := hfc
    exact ⟨v, rfl⟩
  · intro td f hf
    simp only [extract_fields_from_table, List.mem_flatMap] at hf
    obtain ⟨row, hrow, kv, hkv, hf⟩ := hf
    by_cases hcond : kv.2 = "" ∨ (lowerL kv.2.data).asString ∈ skipValues
    · rw [if_pos hcond] at hf
      exact absurd hf (List.not_mem_nil f)
    · rw [if_neg hcond] at hf
      cases hid : identify_field_type kv.2 with
      | none =>
        rw [hid] at hf
        exact absurd hf (List.not_mem_nil f)
      | some ft =>
        rw [hid] at hf
        rw [List.mem_singleton] at hf
        subst hf
        refine ⟨⟨kv.2.data, rfl⟩, ?_⟩
        intro hempty
        have hstrip : stripL kv.2.data = [] := by
          have hd := congrArg String.data hempty
          simpa [List.asString] using hd
        have hnone := identify_of_strip_empty kv.2 hstrip
        rw [hid] at hnone
        exact Option.noConfusion hnone

/-- C5 witness: a concrete table field produced by the pipeline has a
nonempty value. -/
theorem C5_trimmed_values_witness :
    ({ name := "routing_number", value := "987654321", confidence := mkRat 17 20,
       page := 1, method := "table" } : ExtractedField).value ≠ "" :=
  (C5_trimmed_values.2 { page := 1, accuracy := 1, data := [[("c", "987654321")]] }
    _ (by decide)).2

/-! ## C4: table-accuracy scaling -/

theorem mkRat_four_fifths : (mkRat 4 5 : ℚ) = 4 / 5 := by
  rw [mkRat_eq_div]; norm_num

theorem mkRat_one_fifth : (mkRat 1 5 : ℚ) = 1 / 5 := by
  rw [mkRat_eq_div]; norm_num

/-- C4.  Every table-sourced field's stored confidence is
`round(base × (0.8 + 0.2 × accuracy), 2)` where the base is the scorer's
result on the raw cell value with empty context; and the spec's numeric
instance: base 0.9 with accuracy 0.5 yields 0.81. -/
theorem C4_table_accuracy_scaling :
    (∀ td f, f ∈ extract_fields_from_table td →
       ∃ v : String, identify_field_type v = some f.name ∧
         f.confidence =
           round2 (calcConfidence f.name v.data [] * (4 / 5 + 1 / 5 * td.accuracy))) ∧
    round2 ((9 / 10 : ℚ) * (4 / 5 + 1 / 5 * (1 / 2))) = 81 / 100 := by
  constructor
  · intro td f hf
    simp only [extract_fields_from_table, List.mem_flatMap] at hf
    obtain ⟨row, hrow, kv, hkv, hf⟩ := hf
    by_cases hcond : kv.2 = "" ∨ (lowerL kv.2.data).asString ∈ skipValues
    · rw [if_pos hcond] at hf
      exact absurd hf (List.not_mem_nil f)
    · rw [if_neg hcond] at hf
      cases hid : identify_field_type kv.2 with
      | none =>
        rw [hid] at hf
        exact absurd hf (List.not_mem_nil f)
      | some ft =>
        rw [hid] at hf
        rw [List.mem_singleton] at hf
        subst hf
        refine ⟨kv.2, hid, ?_⟩
        rw [qMul_eq, qAdd_eq, qMul_eq, mkRat_four_fifths, mkRat_one_fifth]
  · have h1 : ((9 : ℚ) / 10 * (4 / 5 + 1 / 5 * (1 / 2))) = 81 / 100 := by norm_num
    rw [h1, round2_eq]
    have h2 : (100 : ℚ) * (81 / 100) = ((81 : ℕ) : ℚ) := by norm_num
    rw [h2, round_natCast]
    norm_num

/-- C4 witness: the theorem applied to a concrete one-cell table of accuracy
1 (base 0.85, factor 1, stored 0.85). -/
theorem C4_table_accuracy_scaling_witness :
    ∃ v : String, identify_field_type v = some "routing_number" ∧
      (mkRat 17 20 : ℚ) =
        round2 (calcConfidence "routing_number" v.data [] * (4 / 5 + 1 / 5 * (1 : ℚ))) := by
  have h := C4_table_accuracy_scaling.1
    { page := 1, accuracy := 1, data := [[("c", "987654321")]] }
    { name := "routing_number", value := "987654321", confidence := mkRat 17 20,
      page := 1, method := "table" }
    (by decide)
  simpa using h

/-! ## C6: total text-extraction failure -/

/-- C6.  When both strategies yield empty text and a zero page count, the
orchestrator returns (it cannot raise: the model is a total function, and in
the source the `ValueError` is caught by the enclosing handler) a result
with status `error` whose `error_message` contains (here: equals) the text
"Unable to extract text from PDF". -/
theorem C6_error_result (plumber pypdf2 : PyExtracted) (tables : List TableData)
    (filename : String)
    (h1 : plumber.text = "") (h2 : pypdf2.text = "")
    (h3 : plumber.pageCount = 0) (h4 : pypdf2.pageCount = 0) :
    (process_pdf_internal plumber pypdf2 tables filename).status = "error" ∧
    (process_pdf_internal plumber pypdf2 tables filename).error_message =
      some "Unable to extract text from PDF" ∧
    ∃ msg, (process_pdf_internal plumber pypdf2 tables filename).error_message = some msg ∧
      containsSub msg.data "Unable to extract text from PDF".data = true := by
  rw [process_pdf_internal]
  rw [if_pos h1, if_pos ⟨h2, h4⟩]
  exact ⟨rfl, rfl, "Unable to extract text from PDF", rfl, by decide⟩

/-- C6 witness. -/
theorem C6_error_result_witness :
    (process_pdf_internal { text := "", pages := [], pageCount := 0 }
      { text := "", pages := [], pageCount := 0 } [] "f.pdf").status = "error" :=
  (C6_error_result { text := "", pages := [], pageCount := 0 }
    { text := "", pages := [], pageCount := 0 } [] "f.pdf" rfl rfl rfl rfl).1

/-! ## History-store lemmas -/

theorem log_extraction_tables (hm : HM) (a : LogArgs) (logId fieldId : Nat) (ts : ℚ) :
    (log_extraction hm a logId fieldId ts).history = hm.history ++ [mkHistoryRow a logId ts] ∧
    (log_extraction hm a logId fieldId ts).revisions = hm.revisions := by
  rw [log_extraction]
  cases a.file_hash <;> cases a.field_name <;> cases a.value <;> dsimp only [] <;>
    first
      | exact ⟨rfl, rfl⟩
      | (split_ifs <;> exact ⟨rfl, rfl⟩)

theorem log_extraction_fields_of_nonextract (hm : HM) (a : LogArgs)
    (logId fieldId : Nat) (ts : ℚ) (h : a.action ≠ "extract") :
    (log_extraction hm a logId fieldId ts).fields = hm.fields := by
  rw [log_extraction]
  cases a.file_hash <;> cases a.field_name <;> cases a.value <;> dsimp only [] <;>
    first
      | rfl
      | (rw [if_neg (by intro hc; exact h hc.1)])

theorem find?_map_cond {α : Type} (p : α → Bool) (upd : α → α)
    (h : ∀ x, p (upd x) = p x) :
    ∀ l : List α, (l.map (fun x => if p x then upd x else x)).find? p = (l.find? p).map upd
  | [] => rfl
  | x :: l => by
    cases hp : p x
    · rw [List.map_cons, if_neg (by simp [hp]), List.find?_cons_of_neg _ (by simp [hp]),
        List.find?_cons_of_neg _ (by simp [hp])]
      exact find?_map_cond p upd h l
    · rw [List.map_cons, if_pos hp, List.find?_cons_of_pos _ (by simp [h, hp]),
        List.find?_cons_of_pos _ (by simp [hp])]
      rfl

theorem map_cond_id {α : Type} (p : α → Bool) (upd : α → α) :
    ∀ l : List α, (∀ x ∈ l, p x = false) →
      l.map (fun x => if p x then upd x else x) = l
  | [], _ => rfl
  | x :: l, h => by
    rw [List.map_cons, if_neg (by simp [h x (by simp)]),
      map_cond_id p upd l (fun y hy => h y (by simp [hy]))]

theorem frKey_applyRevUpdate (fh fn : String) (fr : FieldRow) (nv : String) (nc ts : ℚ) :
    frKey fh fn (applyRevUpdate fr nv nc ts) = frKey fh fn fr := rfl

theorem add_revision_tables (hm : HM) (fh fn ov nv : String) (oc nc : ℚ)
    (cb : String) (rs : Option String) (par : Option Nat)
    (rid logId fieldId : Nat) (ts ts2 : ℚ) :
    (add_revision hm fh fn ov nv oc nc cb rs par rid logId fieldId ts ts2).revisions
      = hm.revisions ++ [mkRevision fh fn ov nv oc nc cb rs par rid ts] ∧
    (add_revision hm fh fn ov nv oc nc cb rs par rid logId fieldId ts ts2).history
      = hm.history ++ [mkHistoryRow (revisionLogArgs fh fn ov nv oc nc cb rs rid) logId ts2] ∧
    (add_revision hm fh fn ov nv oc nc cb rs par rid logId fieldId ts ts2).fields
      = hm.fields.map (fun fr => if frKey fh fn fr then applyRevUpdate fr nv nc ts else fr) := by
  rw [add_revision]
  have h1 := log_extraction_tables
    { hm with
      revisions := hm.revisions ++ [mkRevision fh fn ov nv oc nc cb rs par rid ts],
      fields := hm.fields.map (fun fr => if frKey fh fn fr then applyRevUpdate fr nv nc ts else fr) }
    (revisionLogArgs fh fn ov nv oc nc cb rs rid) logId fieldId ts2
  have h2 := log_extraction_fields_of_nonextract
    { hm with
      revisions := hm.revisions ++ [mkRevision fh fn ov nv oc nc cb rs par rid ts],
      fields := hm.fields.map (fun fr => if frKey fh fn fr then applyRevUpdate fr nv nc ts else fr) }
    (revisionLogArgs fh fn ov nv oc nc cb rs rid) logId fieldId ts2 (by simp [revisionLogArgs])
  exact ⟨h1.2, h1.1, h2⟩

theorem insertAscRev_of_lt (r : RevisionRow) : ∀ l : List RevisionRow,
    (∀ x ∈ l, qLt r.timestamp x.timestamp = true) → insertAscRev r l = r :: l
  | [], _ => rfl
  | x :: l, h => by
    rw [insertAscRev, if_pos (h x (by simp))]

theorem sortAscRevs_sorted : ∀ l : List RevisionRow,
    List.Pairwise (fun a b : RevisionRow => a.timestamp < b.timestamp) l →
    sortAscRevs l = l
  | [], _ => rfl
  | x :: l, List.Pairwise.cons hx hl => by
    show insertAscRev x (sortAscRevs l) = x :: l
    rw [sortAscRevs_sorted l hl]
    apply insertAscRev_of_lt
    intro y hy
    rw [qLt_iff]
    exact hx y hy

theorem insertDescRow_append (r : HistoryRow) : ∀ m : List HistoryRow,
    (∀ y ∈ m, ¬ (qLt y.timestamp r.timestamp = true)) → insertDescRow r m = m ++ [r]
  | [], _ => rfl
  | y :: m, h => by
    rw [insertDescRow, if_neg (h y (by simp)),
      insertDescRow_append r m (fun z hz => h z (by simp [hz]))]
    rfl

theorem sortDescRows_of_increasing : ∀ l : List HistoryRow,
    List.Pairwise (fun a b : HistoryRow => a.timestamp < b.timestamp) l →
    sortDescRows l = l.reverse
  | [], _ => rfl
  | x :: l, List.Pairwise.cons hx hl => by
    show insertDescRow x (sortDescRows l) = (x :: l).reverse
    rw [sortDescRows_of_increasing l hl, List.reverse_cons]
    apply insertDescRow_append
    intro y hy hc
    rw [List.mem_reverse] at hy
    exact absurd ((qLt_iff _ _).mp hc) (not_lt.mpr (hx y hy).le)

/-- The revision row of one `RevCall` against a fixed key. -/
def mkRevC (fh fn : String) (c : RevCall) : RevisionRow :=
  mkRevision fh fn c.old_value c.new_value c.old_confidence c.new_confidence
    c.changed_by c.reason c.parent c.rid c.ts

theorem foldUpd_count : ∀ (cs : List RevCall) (fr : FieldRow),
    (cs.foldl (fun r c => applyRevUpdate r c.new_value c.new_confidence c.ts) fr).revision_count
      = fr.revision_count + cs.length
  | [], fr => rfl
  | c :: cs, fr => by
    rw [List.foldl_cons, foldUpd_count cs, List.length_cons]
    show fr.revision_count + 1 + cs.length = fr.revision_count + (cs.length + 1)
    omega

theorem foldUpd_last : ∀ (cs : List RevCall) (fr : FieldRow) (c : RevCall),
    cs.getLast? = some c →
    (cs.foldl (fun r c => applyRevUpdate r c.new_value c.new_confidence c.ts) fr).current_value
        = some c.new_value ∧
    (cs.foldl (fun r c => applyRevUpdate r c.new_value c.new_confidence c.ts) fr).current_confidence
        = some c.new_confidence
  | [], fr, c, h => by exact Option.noConfusion h
  | [x], fr, c, h => by
    obtain rfl : x = c := by simpa using h
    exact ⟨rfl, rfl⟩
  | x :: y :: cs, fr, c, h => by
    rw [List.foldl_cons]
    exact foldUpd_last (y :: cs) _ c (by rwa [List.getLast?_cons_cons] at h)

theorem applyRevs_state (fh fn : String) : ∀ (cs : List RevCall) (hm : HM) (fr : FieldRow),
    hm.fields.find? (frKey fh fn) = some fr →
    ((applyRevs fh fn hm cs).revisions = hm.revisions ++ cs.map (mkRevC fh fn)) ∧
    ((applyRevs fh fn hm cs).fields.find? (frKey fh fn)
       = some (cs.foldl (fun r c => applyRevUpdate r c.new_value c.new_confidence c.ts) fr))
  | [], hm, fr, hrow => by
    exact ⟨by simp [applyRevs], by simpa [applyRevs] using hrow⟩
  | c :: cs, hm, fr, hrow => by
    have hstep := add_revision_tables hm fh fn c.old_value c.new_value c.old_confidence
      c.new_confidence c.changed_by c.reason c.parent c.rid c.logId c.fieldId c.ts c.ts2
    have hfind : (add_revision hm fh fn c.old_value c.new_value c.old_confidence
        c.new_confidence c.changed_by c.reason c.parent c.rid c.logId c.fieldId
        c.ts c.ts2).fields.find? (frKey fh fn)
        = some (applyRevUpdate fr c.new_value c.new_confidence c.ts) := by
      rw [hstep.2.2, find?_map_cond (frKey fh fn)
        (fun fr => applyRevUpdate fr c.new_value c.new_confidence c.ts) (fun x => rfl), hrow]
      rfl
    have ih := applyRevs_state fh fn cs _ _ hfind
    refine ⟨?_, ?_⟩
    · rw [show applyRevs fh fn hm (c :: cs)
          = applyRevs fh fn (add_revision hm fh fn c.old_value c.new_value c.old_confidence
              c.new_confidence c.changed_by c.reason c.parent c.rid c.logId c.fieldId
              c.ts c.ts2) cs from rfl,
        ih.1, hstep.1, List.map_cons, List.append_assoc]
      rfl
    · rw [show applyRevs fh fn hm (c :: cs)
          = applyRevs fh fn (add_revision hm fh fn c.old_value c.new_value c.old_confidence
              c.new_confidence c.changed_by c.reason c.parent c.rid c.logId c.fieldId
              c.ts c.ts2) cs from rfl,
        ih.2, List.foldl_cons]

/-- C8.  Against a `(file_hash, field_name)` whose state row exists (freshly
created by an extract event: `revision_count = 0`, no prior revisions for the
key): each `add_revision` call appends exactly one revision row leaving all
prior rows unchanged, and sets the state row's current value/confidence and
increments its `revision_count` by exactly one; after N such calls with
strictly increasing timestamps, `get_field_history` returns exactly the N
revisions, oldest-first (= call order), with `revision_count = N` and the
current value/confidence of the last call. -/
theorem C8_revision_chain (fh fn : String) (hm0 : HM) (fr0 : FieldRow) (cs : List RevCall)
    (hrow : hm0.fields.find? (frKey fh fn) = some fr0)
    (hcount : fr0.revision_count = 0)
    (hnoprior : hm0.revisions.filter (rvKey fh fn) = [])
    (hinc : List.Pairwise (fun a b : RevCall => a.ts < b.ts) cs) :
    (∀ (hm : HM) (c : RevCall),
       (add_revision hm fh fn c.old_value c.new_value c.old_confidence c.new_confidence
          c.changed_by c.reason c.parent c.rid c.logId c.fieldId c.ts c.ts2).revisions
         = hm.revisions ++ [mkRevC fh fn c]) ∧
    (∀ (hm : HM) (c : RevCall) (fr : FieldRow),
       hm.fields.find? (frKey fh fn) = some fr →
       ∃ fr2, (add_revision hm fh fn c.old_value c.new_value c.old_confidence c.new_confidence
            c.changed_by c.reason c.parent c.rid c.logId c.fieldId c.ts c.ts2).fields.find?
            (frKey fh fn) = some fr2 ∧
         fr2.current_value = some c.new_value ∧
         fr2.current_confidence = some c.new_confidence ∧
         fr2.revision_count = fr.revision_count + 1) ∧
    (∃ h, get_field_history (applyRevs fh fn hm0 cs) fh fn = some h ∧
       h.revisions = cs.map (mkRevC fh fn) ∧
       h.revision_count = cs.length ∧
       (∀ c, cs.getLast? = some c →
          h.current_value = some c.new_value ∧ h.current_confidence = some c.new_confidence)) := by
  refine ⟨?_, ?_, ?_⟩
  · intro hm c
    exact (add_revision_tables hm fh fn c.old_value c.new_value c.old_confidence
      c.new_confidence c.changed_by c.reason c.parent c.rid c.logId c.fieldId c.ts c.ts2).1
  · intro hm c fr hfr
    refine ⟨applyRevUpdate fr c.new_value c.new_confidence c.ts, ?_, rfl, rfl, rfl⟩
    rw [(add_revision_tables hm fh fn c.old_value c.new_value c.old_confidence
        c.new_confidence c.changed_by c.reason c.parent c.rid c.logId c.fieldId
        c.ts c.ts2).2.2,
      find?_map_cond (frKey fh fn)
        (fun fr => applyRevUpdate fr c.new_value c.new_confidence c.ts) (fun x => rfl), hfr]
    rfl
  · obtain ⟨hrevs, hfind⟩ := applyRevs_state fh fn cs hm0 fr0 hrow
    have hfilter : (applyRevs fh fn hm0 cs).revisions.filter (rvKey fh fn)
        = cs.map (mkRevC fh fn) := by
      rw [hrevs, List.filter_append, hnoprior, List.nil_append, List.filter_eq_self.mpr]
      intro rv hrv
      rw [List.mem_map] at hrv
      obtain ⟨c, -, rfl⟩ := hrv
      simp [rvKey, mkRevC, mkRevision]
    have hsorted : sortAscRevs (cs.map (mkRevC fh fn)) = cs.map (mkRevC fh fn) :=
      sortAscRevs_sorted _ (List.Pairwise.map _ (fun a b hab => hab) hinc)
    simp only [get_field_history, hfind]
    refine ⟨_, rfl, ?_, ?_, ?_⟩
    · show sortAscRevs ((applyRevs fh fn hm0 cs).revisions.filter (rvKey fh fn))
        = cs.map (mkRevC fh fn)
      rw [hfilter, hsorted]
    · show (cs.foldl (fun r c => applyRevUpdate r c.new_value c.new_confidence c.ts)
        fr0).revision_count = cs.length
      rw [foldUpd_count, hcount]
      omega
    · intro c hc
      exact foldUpd_last cs fr0 c hc

/-- C8 witness: a state row created by one extract event, then two revisions
with increasing timestamps; the history returns both, count 2, current value
of the second. -/
theorem C8_revision_chain_witness :
    ∃ h, get_field_history (applyRevs "h1" "amount"
        (log_extraction emptyHM
          { action := "extract", user_id := "u1", file_hash := some "h1",
            field_name := some "amount", value := some "100.00",
            confidence := some (mkRat 8 10) } 100 200 1)
        [{ old_value := "100.00", new_value := "200.00", old_confidence := mkRat 8 10,
           new_confidence := mkRat 95 100, changed_by := "user", rid := 101, logId := 102,
           fieldId := 201, ts := 2, ts2 := 3 },
         { old_value := "200.00", new_value := "300.00", old_confidence := mkRat 95 100,
           new_confidence := mkRat 97 100, changed_by := "user", rid := 103, logId := 104,
           fieldId := 202, ts := 4, ts2 := 5 }]) "h1" "amount" = some h ∧
      h.revision_count = 2 ∧
      h.current_value = some "300.00" := by
  obtain ⟨-, -, h, hg, -, hcnt, hcur⟩ := C8_revision_chain "h1" "amount"
    (log_extraction emptyHM
      { action := "extract", user_id := "u1", file_hash := some "h1",
        field_name := some "amount", value := some "100.00",
        confidence := some (mkRat 8 10) } 100 200 1)
    { id := 200, file_hash := "h1", field_name := "amount",
      current_value := some "100.00", current_confidence := some (mkRat 8 10),
      original_value := some "100.00", original_confidence := some (mkRat 8 10),
      revision_count := 0, last_modified := 1 }
    [{ old_value := "100.00", new_value := "200.00", old_confidence := mkRat 8 10,
       new_confidence := mkRat 95 100, changed_by := "user", rid := 101, logId := 102,
       fieldId := 201, ts := 2, ts2 := 3 },
     { old_value := "200.00", new_value := "300.00", old_confidence := mkRat 95 100,
       new_confidence := mkRat 97 100, changed_by := "user", rid := 103, logId := 104,
       fieldId := 202, ts := 4, ts2 := 5 }]
    (by decide) (by decide) (by decide)
    (by
      simp only [List.pairwise_cons, List.mem_singleton, List.not_mem_nil,
        false_implies, implies_true, and_true, List.Pairwise.nil]
      intro b hb
      subst hb
      norm_num)
  exact ⟨h, hg, hcnt,
    (hcur { old_value := "200.00", new_value := "300.00", old_confidence := mkRat 95 100,
            new_confidence := mkRat 97 100, changed_by := "user", rid := 103, logId := 104,
            fieldId := 202, ts := 4, ts2 := 5 } rfl).1⟩

/-! ## C9 and C10 -/

theorem applyLogs_history : ∀ (ls : List LogCall) (hm : HM),
    (applyLogs hm ls).history
      = hm.history ++ ls.map (fun c => mkHistoryRow c.args c.logId c.ts)
  | [], hm => by simp [applyLogs]
  | c :: ls, hm => by
    rw [show applyLogs hm (c :: ls)
        = applyLogs (log_extraction hm c.args c.logId c.fieldId c.ts) ls from rfl,
      applyLogs_history ls, (log_extraction_tables hm c.args c.logId c.fieldId c.ts).1,
      List.map_cons, List.append_assoc]
    rfl

/-- C9.  Logging any sequence of events (with strictly increasing clock
reads) into a fresh store and then searching with no constraints, offset 0
and a sufficient limit returns exactly one entry per logged event, newest
first. -/
theorem C9_search_round_trip (ls : List LogCall) (lim : ℕ)
    (hinc : List.Pairwise (fun a b : LogCall => a.ts < b.ts) ls)
    (hlim : ls.length ≤ lim) :
    search_history (applyLogs emptyHM ls) { limit := lim }
      = ((ls.map (fun c => mkHistoryRow c.args c.logId c.ts)).reverse).map toEntry ∧
    (search_history (applyLogs emptyHM ls) { limit := lim }).length = ls.length := by
  have hh : (applyLogs emptyHM ls).history
      = ls.map (fun c => mkHistoryRow c.args c.logId c.ts) := by
    rw [applyLogs_history]
    rfl
  have hfilter : (applyLogs emptyHM ls).history.filter (rowPasses { limit := lim })
      = (applyLogs emptyHM ls).history :=
    List.filter_eq_self.mpr (fun r _ => rfl)
  have hrowsinc : List.Pairwise (fun a b : HistoryRow => a.timestamp < b.timestamp)
      (ls.map (fun c => mkHistoryRow c.args c.logId c.ts)) :=
    List.Pairwise.map _ (fun a b hab => hab) hinc
  have e : search_history (applyLogs emptyHM ls) { limit := lim }
      = ((ls.map (fun c => mkHistoryRow c.args c.logId c.ts)).reverse).map toEntry := by
    rw [search_history, hfilter, hh, sortDescRows_of_increasing _ hrowsinc,
      show ({ limit := lim } : SearchFilters).offset = 0 from rfl,
      show ({ limit := lim } : SearchFilters).limit = lim from rfl,
      List.drop_zero, List.take_of_length_le (by simpa using hlim)]
  refine ⟨e, ?_⟩
  rw [e]
  simp

/-- C9 witness: two logged events come back newest-first. -/
theorem C9_search_round_trip_witness :
    (search_history (applyLogs emptyHM
        [{ args := { action := "upload", user_id := "u1" }, logId := 1, fieldId := 11, ts := 1 },
         { args := { action := "view", user_id := "u1" }, logId := 2, fieldId := 12, ts := 2 }])
      { limit := 10 }).length = 2 := by
  have h := C9_search_round_trip
    [{ args := { action := "upload", user_id := "u1" }, logId := 1, fieldId := 11, ts := 1 },
     { args := { action := "view", user_id := "u1" }, logId := 2, fieldId := 12, ts := 2 }]
    10
    (by
      simp only [List.pairwise_cons, List.mem_singleton, List.not_mem_nil,
        false_implies, implies_true, and_true, List.Pairwise.nil]
      intro b hb
      subst hb
      norm_num)
    (by simp)
  exact h.2

/-- C10.  `add_revision` against a key with no state row still inserts the
revision row and emits the `revision` history event, but creates no state
row and updates none; `get_field_history` then reports "not found" even
though revisions for the key exist. -/
theorem C10_orphan_revision (hm : HM) (fh fn ov nv : String) (oc nc : ℚ)
    (cb : String) (rs : Option String) (par : Option Nat) (rid logId fieldId : Nat)
    (ts ts2 : ℚ)
    (habs : hm.fields.find? (frKey fh fn) = none) :
    (add_revision hm fh fn ov nv oc nc cb rs par rid logId fieldId ts ts2).fields
      = hm.fields ∧
    (add_revision hm fh fn ov nv oc nc cb rs par rid logId fieldId ts ts2).revisions
      = hm.revisions ++ [mkRevision fh fn ov nv oc nc cb rs par rid ts] ∧
    (add_revision hm fh fn ov nv oc nc cb rs par rid logId fieldId ts ts2).history
      = hm.history ++ [mkHistoryRow (revisionLogArgs fh fn ov nv oc nc cb rs rid) logId ts2] ∧
    (mkHistoryRow (revisionLogArgs fh fn ov nv oc nc cb rs rid) logId ts2).action
      = "revision" ∧
    get_field_history (add_revision hm fh fn ov nv oc nc cb rs par rid logId fieldId ts ts2)
      fh fn = none ∧
    (add_revision hm fh fn ov nv oc nc cb rs par rid logId fieldId ts ts2).revisions.filter
      (rvKey fh fn) ≠ [] := by
  have ht := add_revision_tables hm fh fn ov nv oc nc cb rs par rid logId fieldId ts ts2
  have hfields : (add_revision hm fh fn ov nv oc nc cb rs par rid logId fieldId ts ts2).fields
      = hm.fields := by
    rw [ht.2.2]
    exact map_cond_id _ _ hm.fields
      (fun x hx => by simpa using List.find?_eq_none.mp habs x hx)
  refine ⟨hfields, ht.1, ht.2.1, rfl, ?_, ?_⟩
  · simp only [get_field_history, hfields, habs]
  · rw [ht.1]
    intro hc
    have hmem : mkRevision fh fn ov nv oc nc cb rs par rid ts
        ∈ (hm.revisions ++ [mkRevision fh fn ov nv oc nc cb rs par rid ts]).filter
          (rvKey fh fn) := by
      rw [List.mem_filter]
      exact ⟨List.mem_append_right _ (by simp), by simp [rvKey, mkRevision]⟩
    rw [hc] at hmem
    exact absurd hmem (List.not_mem_nil _)

/-- C10 witness: an orphan revision into a fresh store. -/
theorem C10_orphan_revision_witness :
    get_field_history (add_revision emptyHM "h2" "tax" "1" "2" (mkRat 5 10) (mkRat 6 10)
      "user" none none 105 106 203 6 7) "h2" "tax" = none ∧
    (add_revision emptyHM "h2" "tax" "1" "2" (mkRat 5 10) (mkRat 6 10)
      "user" none none 105 106 203 6 7).revisions ≠ [] := by
  have h := C10_orphan_revision emptyHM "h2" "tax" "1" "2" (mkRat 5 10) (mkRat 6 10)
    "user" none none 105 106 203 6 7 rfl
  refine ⟨h.2.2.2.2.1, ?_⟩
  rw [h.2.1]
  simp
